import Mathlib

/-!
Verification of the Doge-Agent-Signals feed proxy (`src/server.mjs`).

The repository file concatenates three snapshots ("variants") of the same
Express server.  Variant 1 (lines 1-246) has a permissive `fetchFeed` and a
normalizer built on `findLargestObjectArray`; variant 2 (lines 247-485) has
the preferred-key normalizer `normalizeDubDubFeed`; variant 3 (lines 486-675)
has an allow-list `fetchFeed` and a `/anoncoin/feeds/all` handler that does
not normalize and does not blank out failed modes.

JSON values are modelled as a tagged union; JavaScript numbers are modelled
as integers (no claim depends on float behaviour).  JavaScript `typeof
x === "object"` is true for `null`, arrays and plain objects; truthiness
follows JavaScript (`0`, `""`, `false`, `null` are falsy, every array and
object is truthy).  The process-wide `Map` cache becomes an explicit
association list threaded through `cachedFetch`; the network is abstracted
as an `HttpResponse` value describing what `fetch` would return for the one
request a `cachedFetch` call can issue, and each result records whether that
request was actually issued (`fetched`).
-/

/-- JSON value as produced by `res.json()` / consumed by the normalizers. -/
inductive Json where
  | null : Json
  | bool (b : Bool) : Json
  | num (n : Int) : Json
  | str (s : String) : Json
  | arr (elems : List Json) : Json
  | obj (fields : List (String × Json)) : Json

namespace Json

/-- JavaScript `Array.isArray`. -/
def isArr : Json → Bool
  | .arr _ => true
  | _ => false

/-- JavaScript `typeof v === "object"` (true for `null`, arrays and objects). -/
def typeofObject : Json → Bool
  | .null => true
  | .arr _ => true
  | .obj _ => true
  | _ => false

/-- JavaScript truthiness of a JSON value (`NaN` does not arise: numbers are `Int`). -/
def truthy : Json → Bool
  | .null => false
  | .bool b => b
  | .num n => n != 0
  | .str s => s != ""
  | .arr _ => true
  | .obj _ => true

/-- Property access `v[k]`: `none` models JavaScript `undefined`
(absent key, or access on a non-object). -/
def getField : Json → String → Option Json
  | .obj fields, k => (fields.find? (fun kv => kv.1 = k)).map (fun kv => kv.2)
  | _, _ => none

/-- `Object.values(v)` for an object value (insertion order). -/
def valuesOf : Json → List Json
  | .obj fields => fields.map (fun kv => kv.2)
  | _ => []

end Json

/-- Truthiness of a possibly-`undefined` value (`undefined` is falsy). -/
def truthyOpt : Option Json → Bool
  | none => false
  | some v => v.truthy

/-- One record of the in-memory cache: `{ ts, ttlMs, data }` (server.mjs line 27). -/
structure CacheEntry where
  ts : Int
  ttlMs : Int
  data : Json

/-- The process-wide `Map` keyed by cache-key strings. -/
abbrev Cache := List (String × CacheEntry)

/-- `Map.prototype.get`. -/
def Cache.get : Cache → String → Option CacheEntry
  | [], _ => none
  | (k', e) :: rest, k => if k' = k then some e else Cache.get rest k

/-- `Map.prototype.set`: overwrite in place, else append. -/
def Cache.set : Cache → String → CacheEntry → Cache
  | [], k, e => [(k, e)]
  | (k', e') :: rest, k, e =>
      if k' = k then (k, e) :: rest else (k', e') :: Cache.set rest k e

/-- What the single upstream `fetch` of a `cachedFetch` call would return:
`ok`/`status` from the HTTP response, `textBody = none` when reading the body
fails (the `.catch(() => "")` case), `jsonBody = none` when `res.json()`
rejects. -/
structure HttpResponse where
  ok : Bool
  status : Nat
  textBody : Option String
  jsonBody : Option Json

/-- Outcome of a `cachedFetch`/`fetchFeed` call: the returned or thrown value,
the cache afterwards, and whether an upstream HTTP request was issued. -/
structure FetchResult where
  result : Except String Json
  cache : Cache
  fetched : Bool

def DEFAULT_CACHE_TTL_MS : Int := 30000

def DUBDUB_BASE : String := "https://api.dubdub.tv/v1"

/-- The miss path of `cachedFetch` (server.mjs lines 55-63): perform the
fetch, throw on a non-ok status with the best-effort body text, throw if the
body is not JSON, otherwise store `{ ts: now, ttlMs, data }` and return. -/
def cachedFetchMiss (key : String) (ttlMs now : Int) (upstream : HttpResponse)
    (cache : Cache) : FetchResult :=
  if !upstream.ok then
    { result := .error
        ("Upstream error " ++ toString upstream.status ++ ": "
          ++ upstream.textBody.getD "")
      cache := cache
      fetched := true }
  else
    match upstream.jsonBody with
    | none => { result := .error "invalid JSON body", cache := cache, fetched := true }
    | some data =>
        { result := .ok data
          cache := cache.set key ⟨now, ttlMs, data⟩
          fetched := true }

/-- `cachedFetch(key, url, options, ttlMs)` (server.mjs lines 47-64).  The
`url`/`options` arguments only feed the abstracted network, represented by
`upstream`. -/
def cachedFetch (key : String) (ttlMs now : Int) (upstream : HttpResponse)
    (cache : Cache) : FetchResult :=
  match cache.get key with
  | some cached =>
      if now - cached.ts < ttlMs then
        { result := .ok cached.data, cache := cache, fetched := false }
      else cachedFetchMiss key ttlMs now upstream cache
  | none => cachedFetchMiss key ttlMs now upstream cache

/-- A `{ sortBy, limit, chainType }` triple as passed to `fetchFeed`. -/
structure FeedRequest where
  sortBy : String
  limit : Int
  chainType : String
deriving DecidableEq

/-- The template literal `feed:${sortBy}:${limit}:${chainType}`
(server.mjs lines 116, 354, 565). -/
def feedKey (r : FeedRequest) : String :=
  "feed:" ++ r.sortBy ++ ":" ++ toString r.limit ++ ":" ++ r.chainType

/-- `buildDubDubUrl` (server.mjs lines 34-42); `URLSearchParams`
percent-encoding is not modelled, as no claim inspects the URL text. -/
def buildDubDubUrl (r : FeedRequest) : String :=
  DUBDUB_BASE ++ "/feeds?limit=" ++ toString r.limit
    ++ "&sortBy=" ++ (if r.sortBy = "" then "marketCap" else r.sortBy)
    ++ "&chainType=" ++ (if r.chainType = "" then "solana" else r.chainType)

/-- `fetchFeed` of the permissive variants (server.mjs lines 114-129 and
352-367): build the key and delegate to `cachedFetch` with the default TTL. -/
def fetchFeed (r : FeedRequest) (now : Int) (upstream : HttpResponse)
    (cache : Cache) : FetchResult :=
  cachedFetch (feedKey r) DEFAULT_CACHE_TTL_MS now upstream cache

/-- The test `node.length && typeof node[0] === "object"` applied by the
walker to every array it meets (server.mjs line 77): non-empty and first
element of JavaScript typeof "object". -/
def arrayQualifies : List Json → Bool
  | [] => false
  | x :: _ => x.typeofObject

/-- The replacement test `!best || node.length > best.length`
(server.mjs line 78). -/
def strictlyLarger (elems : List Json) : Option (List Json) → Bool
  | none => true
  | some best => decide (best.length < elems.length)

mutual

/-- The inner `walk(node, depth)` of `findLargestObjectArray`
(server.mjs lines 73-92), with the mutated `best` threaded explicitly. -/
def walkJson (maxDepth : Nat) (node : Json) (depth : Nat)
    (best : Option (List Json)) : Option (List Json) :=
  if depth > maxDepth then best
  else
    match node with
    | .arr elems =>
        let best1 :=
          if arrayQualifies elems && strictlyLarger elems best then some elems
          else best
        walkElems maxDepth elems (depth + 1) best1
    | .obj fields => walkFields maxDepth fields (depth + 1) best
    | _ => best

/-- `node.forEach((child) => walk(child, depth + 1))` (server.mjs line 83). -/
def walkElems (maxDepth : Nat) (nodes : List Json) (depth : Nat)
    (best : Option (List Json)) : Option (List Json) :=
  match nodes with
  | [] => best
  | x :: rest => walkElems maxDepth rest depth (walkJson maxDepth x depth best)

/-- `for (const v of Object.values(node)) walk(v, depth + 1)`
(server.mjs lines 88-90). -/
def walkFields (maxDepth : Nat) (fields : List (String × Json)) (depth : Nat)
    (best : Option (List Json)) : Option (List Json) :=
  match fields with
  | [] => best
  | (_, v) :: rest => walkFields maxDepth rest depth (walkJson maxDepth v depth best)

end

/-- `findLargestObjectArray(root, maxDepth)` (server.mjs lines 70-96):
run the walk from depth 0 and return `best || []`. -/
def findLargestObjectArray (root : Json) (maxDepth : Nat) : List Json :=
  (walkJson maxDepth root 0 none).getD []

namespace V1

/-- Variant 1 `normalizeDubDubFeed` (server.mjs lines 101-109): return the
input if it is a non-empty array whose first element has typeof "object",
otherwise hunt for the largest object-array inside (depth 5). -/
def normalizeDubDubFeed (data : Json) : Json :=
  if !data.truthy then .arr []
  else
    match data with
    | .arr elems =>
        if arrayQualifies elems then .arr elems
        else .arr (findLargestObjectArray data 5)
    | _ => .arr (findLargestObjectArray data 5)

end V1

namespace V2

/-- `candidateKeys` (server.mjs line 334). -/
def candidateKeys : List String := ["items", "data", "docs", "results", "tokens", "coins"]

/-- The `for (const key of candidateKeys)` loop (server.mjs lines 335-338):
first candidate key whose value is an array. -/
def candidateScan (data : Json) : Option Json :=
  candidateKeys.findSome? (fun k =>
    match data.getField k with
    | some v => if v.isArr then some v else none
    | none => none)

/-- The fallback `Object.values(data).find((v) => Array.isArray(v))`
(server.mjs lines 341-343). -/
def fallbackScan (data : Json) : Option Json :=
  (data.valuesOf).find? Json.isArr

/-- Candidate-key scan then fallback scan then `[]`
(server.mjs lines 334-345). -/
def afterFeeds (data : Json) : Json :=
  match candidateScan data with
  | some v => v
  | none =>
      match fallbackScan data with
      | some v => v
      | none => .arr []

/-- The branch `if (Array.isArray(data.feeds)) return data.feeds`
(server.mjs line 324), as the value it would return when taken. -/
def feedsDirect (data : Json) : Option Json :=
  match data.getField "feeds" with
  | some f => if f.isArr then some f else none
  | none => none

/-- The branch for `feeds` being itself an object (server.mjs lines
327-331): `data.feeds && typeof data.feeds === "object" &&
!Array.isArray(data.feeds)`, then the first array among its values. -/
def feedsInner (data : Json) : Option Json :=
  match data.getField "feeds" with
  | some f =>
      if f.truthy && f.typeofObject && !f.isArr then (f.valuesOf).find? Json.isArr
      else none
  | none => none

/-- Variant 2 `normalizeDubDubFeed` (server.mjs lines 316-346): falsy input
and non-object scalars map to `[]`; arrays are returned as-is; then the
`feeds` field is tried (directly, or its first array-valued member when it
is itself an object), then the candidate keys, then any array-valued
top-level field. -/
def normalizeDubDubFeed (data : Json) : Json :=
  if !data.truthy then .arr []
  else if data.isArr then data
  else if !data.typeofObject then .arr []
  else
    match feedsDirect data with
    | some f => f
    | none =>
        match feedsInner data with
        | some firstArray => firstArray
        | none => afterFeeds data

end V2

/-- JavaScript `s.split(",")`, written over the character list: split at
every comma, keeping empty pieces (`"".split(",")` is `[""]`). -/
def splitCommaAux : List Char → List Char → List String
  | [], acc => [String.mk acc.reverse]
  | c :: cs, acc =>
      if c = ',' then String.mk acc.reverse :: splitCommaAux cs []
      else splitCommaAux cs (c :: acc)

/-- JavaScript `modesParam.split(",")`. -/
def splitComma (s : String) : List String := splitCommaAux s.data []

/-- JavaScript `s.trim()`: strip leading and trailing whitespace (ASCII
whitespace suffices for the strings at stake). -/
def trimSpaces (s : String) : String :=
  String.mk (((s.data.dropWhile Char.isWhitespace).reverse.dropWhile
      Char.isWhitespace).reverse)

/-- `modesParam.split(",").map((s) => s.trim()).filter(Boolean)`
(server.mjs lines 200-203 and 439-442). -/
def parseModes (modesParam : String) : List String :=
  ((splitComma modesParam).map trimSpaces).filter (fun s => s != "")

/-- The default of the `modes` query parameter (server.mjs lines 195-198). -/
def DEFAULT_MODES : String := "marketCap,volume24h,topToday,mostFollowed,new"

/-- Result of one `fetchFeed(...)` promise before the `.catch` handler:
either the raw payload or a thrown error message. -/
inductive FetchOutcome where
  | ok (raw : Json)
  | err (message : String)

/-- The `.catch((err) => ({ _error: err.message }))` wrapper applied to each
per-mode fetch (server.mjs lines 214-216, 453-455, 649-651). -/
def settleOutcome : FetchOutcome → Json
  | .ok raw => raw
  | .err message => .obj [("_error", .str message)]

/-- Response body of a successful `/anoncoin/feeds/all` request. -/
structure BatchResponse where
  chainType : String
  limit : Int
  source : String
  feeds : List (String × Json)

/-- A batch request either fails with a 400 `{ error, message }` or returns
a `BatchResponse`. -/
inductive BatchOutcome where
  | badRequest (error message : String)
  | okResponse (body : BatchResponse)

namespace V1

/-- The slot computed for one mode from its settled result in variant 1
(server.mjs lines 222-228): a truthy `_error` marker yields `[]`, otherwise
the payload normalized by this snapshot's own `normalizeDubDubFeed`
(lines 101-109). -/
def feedSlot (raw : Json) : Json :=
  if raw.truthy && truthyOpt (raw.getField "_error") then .arr []
  else V1.normalizeDubDubFeed raw

/-- Variant 1's `sorts.forEach((name, idx) => ...)` join (server.mjs lines
220-229), with `rawResults[idx]` given by the per-mode outcome. -/
def joinFeeds (sorts : List String) (outcomes : String → FetchOutcome) :
    List (String × Json) :=
  sorts.map (fun name => (name, feedSlot (settleOutcome (outcomes name))))

/-- Variant 1's `/anoncoin/feeds/all` handler (server.mjs lines 190-241),
up to JSON serialization.  The second component lists the `sortBy` values
for which a `fetchFeed` call is issued; the 400 branch returns before any
fetch, hence the empty list there. -/
def feedsAllHandler (modesQ : Option String) (limit : Int) (chainType : String)
    (outcomes : String → FetchOutcome) : BatchOutcome × List String :=
  let modesParam := modesQ.getD DEFAULT_MODES
  let sorts := parseModes modesParam
  if sorts.isEmpty then
    (.badRequest "invalid_modes" "modes query must contain at least one sort key", [])
  else
    (.okResponse ⟨chainType, limit, "dubdub.tv", joinFeeds sorts outcomes⟩, sorts)

end V1

namespace V2

/-- The slot computed for one mode from its settled result in variant 2
(server.mjs lines 461-467): a truthy `_error` marker yields `[]`, otherwise
the payload normalized by this snapshot's own `normalizeDubDubFeed`
(lines 316-346). -/
def feedSlot (raw : Json) : Json :=
  if raw.truthy && truthyOpt (raw.getField "_error") then .arr []
  else V2.normalizeDubDubFeed raw

/-- Variant 2's `sorts.forEach((name, idx) => ...)` join (server.mjs lines
459-468), with `rawResults[idx]` given by the per-mode outcome. -/
def joinFeeds (sorts : List String) (outcomes : String → FetchOutcome) :
    List (String × Json) :=
  sorts.map (fun name => (name, feedSlot (settleOutcome (outcomes name))))

/-- Variant 2's `/anoncoin/feeds/all` handler (server.mjs lines 429-480),
up to JSON serialization; its modes gate (lines 439-449) is textually
identical to variant 1's (lines 200-210).  The second component lists the
`sortBy` values for which a `fetchFeed` call is issued; the 400 branch
returns before any fetch, hence the empty list there. -/
def feedsAllHandler (modesQ : Option String) (limit : Int) (chainType : String)
    (outcomes : String → FetchOutcome) : BatchOutcome × List String :=
  let modesParam := modesQ.getD DEFAULT_MODES
  let sorts := parseModes modesParam
  if sorts.isEmpty then
    (.badRequest "invalid_modes" "modes query must contain at least one sort key", [])
  else
    (.okResponse ⟨chainType, limit, "dubdub.tv", joinFeeds sorts outcomes⟩, sorts)

end V2

namespace V3

/-- The fixed mode list of variant 3 (server.mjs line 645). -/
def sortNames : List String := ["trending", "new", "hot", "volume"]

/-- Variant 3's join (server.mjs lines 655-658): `feeds[name] = results[idx]`
verbatim — no `_error` check and no normalization. -/
def joinFeeds (outcomes : String → FetchOutcome) : List (String × Json) :=
  sortNames.map (fun name => (name, settleOutcome (outcomes name)))

/-- Variant 3's `/anoncoin/feeds/all` handler (server.mjs lines 640-670). -/
def feedsAllHandler (limit : Int) (chainType : String)
    (outcomes : String → FetchOutcome) : BatchResponse :=
  ⟨chainType, limit, "dubdub.tv", joinFeeds outcomes⟩

end V3


section Helpers

theorem Cache.get_set_self (c : Cache) (k : String) (e : CacheEntry) :
    (c.set k e).get k = some e := by
  induction c with
  | nil => simp [Cache.set, Cache.get]
  | cons kv rest ih =>
      obtain ⟨k', e'⟩ := kv
      by_cases h : k' = k <;> simp [Cache.set, Cache.get, h, ih]

theorem V2.candidateScan_isArr {data v : Json}
    (h : V2.candidateScan data = some v) : v.isArr = true := by
  obtain ⟨k, hk, hf⟩ := List.exists_of_findSome?_eq_some h
  revert hf
  cases data.getField k with
  | none => intro hf; exact absurd hf (by simp)
  | some w =>
      intro hf
      by_cases hw : w.isArr = true
      · simp [hw] at hf
        exact hf ▸ hw
      · simp [Bool.eq_false_iff.mpr hw] at hf

theorem V2.fallbackScan_isArr {data v : Json}
    (h : V2.fallbackScan data = some v) : v.isArr = true :=
  List.find?_some h

theorem V2.afterFeeds_isArr (data : Json) : (V2.afterFeeds data).isArr = true := by
  unfold V2.afterFeeds
  cases hc : V2.candidateScan data with
  | some v => exact V2.candidateScan_isArr hc
  | none =>
      cases hf : V2.fallbackScan data with
      | some v => simpa using V2.fallbackScan_isArr hf
      | none => rfl

theorem V2.feedsInner_isArr {data v : Json}
    (h : V2.feedsInner data = some v) : v.isArr = true := by
  revert h
  unfold V2.feedsInner
  cases data.getField "feeds" with
  | none => intro h; exact absurd h (by simp)
  | some f =>
      intro h
      by_cases hc : (f.truthy && f.typeofObject && !f.isArr) = true
      · simp [hc] at h
        exact List.find?_some h
      · simp [Bool.eq_false_iff.mpr hc] at h

theorem V2.feedsDirect_isArr {data v : Json}
    (h : V2.feedsDirect data = some v) : v.isArr = true := by
  revert h
  unfold V2.feedsDirect
  cases data.getField "feeds" with
  | none => intro h; exact absurd h (by simp)
  | some f =>
      intro h
      by_cases hf : f.isArr = true
      · simp [hf] at h
        exact h ▸ hf
      · simp [Bool.eq_false_iff.mpr hf] at h

end Helpers

/-- C3: for every JSON value, both `normalizeDubDubFeed` variants return an
array (and, being total Lean functions over the full `Json` type, never
fail): the variant of lines 101-109 and the variant of lines 316-346 both
produce a value satisfying `Array.isArray`. -/
theorem C3_normalize_always_array (data : Json) :
    (V1.normalizeDubDubFeed data).isArr = true
  ∧ (V2.normalizeDubDubFeed data).isArr = true := by
  constructor
  · unfold V1.normalizeDubDubFeed
    split
    · rfl
    · split
      · split <;> rfl
      · rfl
  · unfold V2.normalizeDubDubFeed
    split
    · rfl
    · split
      · assumption
      · split
        · rfl
        · cases hd : V2.feedsDirect data with
          | some f => simp only [hd]; exact V2.feedsDirect_isArr hd
          | none =>
              simp only [hd]
              cases hi : V2.feedsInner data with
              | some f => simp only [hi]; exact V2.feedsInner_isArr hi
              | none => simp only [hi]; exact V2.afterFeeds_isArr data

/-- C5 counterexample: the variant of `normalizeDubDubFeed` at lines 101-109
maps the already-flat scalar array `[1, 2, 3]` to `[]`, not to itself, so
the claim as stated fails on the code. -/
theorem C5_counterexample :
    V1.normalizeDubDubFeed (.arr [.num 1, .num 2, .num 3]) = .arr []
  ∧ Json.arr [] ≠ Json.arr [.num 1, .num 2, .num 3] := by
  refine ⟨rfl, fun h => ?_⟩
  simp at h

/-- C5 amended: the variant at lines 316-346 returns every flat array
unchanged (including the empty array and arrays of scalars); the variant at
lines 101-109 does so for the empty array and for arrays whose first
element has JavaScript typeof "object". -/
theorem C5_amended_flat_array_identity :
    (∀ elems : List Json, V2.normalizeDubDubFeed (.arr elems) = .arr elems)
  ∧ V1.normalizeDubDubFeed (.arr []) = .arr []
  ∧ (∀ (x : Json) (rest : List Json), x.typeofObject = true →
      V1.normalizeDubDubFeed (.arr (x :: rest)) = .arr (x :: rest)) := by
  refine ⟨fun elems => ?_, rfl, fun x rest hx => ?_⟩
  · unfold V2.normalizeDubDubFeed
    simp [Json.truthy, Json.isArr]
  · unfold V1.normalizeDubDubFeed
    simp [Json.truthy, arrayQualifies, hx]

/-- C5 witness: the amended statement evaluated at `[7]` for the variant of
lines 316-346 and at `[{}, 1]` for the variant of lines 101-109. -/
theorem C5_witness :
    V2.normalizeDubDubFeed (.arr [.num 7]) = .arr [.num 7]
  ∧ V1.normalizeDubDubFeed (.arr [.obj [], .num 1]) = .arr [.obj [], .num 1] :=
  ⟨C5_amended_flat_array_identity.1 [.num 7],
   C5_amended_flat_array_identity.2.2 (.obj []) [.num 1] rfl⟩

/-- C6 counterexample: on `{"feeds": {"a": [1]}, "items": [2]}` the `feeds`
field is an object (not an array), the first candidate key holding an array
is `items` with `[2]`, yet `normalizeDubDubFeed` returns `[1]` — the
feeds-object branch wins over the candidate-key scan, refuting the claim as
stated. -/
theorem C6_counterexample :
    V2.normalizeDubDubFeed
        (.obj [("feeds", .obj [("a", .arr [.num 1])]), ("items", .arr [.num 2])])
      = .arr [.num 1]
  ∧ (Json.obj [("feeds", .obj [("a", .arr [.num 1])]), ("items", .arr [.num 2])]).getField "feeds"
      = some (.obj [("a", .arr [.num 1])])
  ∧ (Json.obj [("a", .arr [.num 1])]).isArr = false
  ∧ V2.candidateScan
        (.obj [("feeds", .obj [("a", .arr [.num 1])]), ("items", .arr [.num 2])])
      = some (.arr [.num 2])
  ∧ Json.arr [.num 1] ≠ Json.arr [.num 2] := by
  refine ⟨rfl, rfl, rfl, rfl, fun h => ?_⟩
  simp at h

/-- C6 amended: for every object input whose `feeds` field neither is an
array nor is a truthy non-array object containing an array value,
`normalizeDubDubFeed` inspects `items`, `data`, `docs`, `results`,
`tokens`, `coins` in exactly that order and returns the first whose value
is an array; in particular `{"data":{"x":1},"items":[{"b":2}]}` normalizes
to `[{"b":2}]`. -/
theorem C6_amended_candidate_order
    (fields : List (String × Json)) (v : Json)
    (h1 : V2.feedsDirect (.obj fields) = none)
    (h2 : V2.feedsInner (.obj fields) = none)
    (hcand : V2.candidateScan (.obj fields) = some v) :
    V2.normalizeDubDubFeed (.obj fields) = v
  ∧ V2.normalizeDubDubFeed
        (.obj [("data", .obj [("x", .num 1)]), ("items", .arr [.obj [("b", .num 2)]])])
      = .arr [.obj [("b", .num 2)]] := by
  refine ⟨?_, rfl⟩
  unfold V2.normalizeDubDubFeed
  simp only [h1, h2, Json.truthy, Json.isArr, Json.typeofObject, Bool.not_true,
    Bool.not_false, if_false, if_true]
  unfold V2.afterFeeds
  simp [hcand]

/-- C6 witness: the amended statement evaluated at
`{"tokens": [3], "x": 0}` (no `feeds` field; `tokens` is the first
candidate key bound to an array). -/
theorem C6_witness :
    V2.normalizeDubDubFeed (.obj [("tokens", .arr [.num 3]), ("x", .num 0)])
      = .arr [.num 3] :=
  (C6_amended_candidate_order [("tokens", .arr [.num 3]), ("x", .num 0)]
    (.arr [.num 3]) rfl rfl rfl).1

/-- C9: when splitting the `modes` parameter (or its default) on commas,
trimming and dropping empty pieces leaves no sort mode, the
`/anoncoin/feeds/all` handler answers with the 400 `invalid_modes` client
error and issues no `fetchFeed` call (the fetch list is empty). -/
theorem C9_no_valid_modes_rejected (modesQ : Option String) (limit : Int)
    (chainType : String) (outcomes : String → FetchOutcome)
    (h : parseModes (modesQ.getD DEFAULT_MODES) = []) :
    V2.feedsAllHandler modesQ limit chainType outcomes
      = (.badRequest "invalid_modes" "modes query must contain at least one sort key",
         []) := by
  unfold V2.feedsAllHandler
  simp [h]

/-- C9 witness: `modes=",, ,"` parses to no valid mode and is rejected with
`invalid_modes` before any fetch. -/
theorem C9_witness :
    V2.feedsAllHandler (some ",, ,") 10 "solana" (fun _ => .ok (.arr []))
      = (.badRequest "invalid_modes" "modes query must contain at least one sort key",
         []) :=
  C9_no_valid_modes_rejected (some ",, ,") 10 "solana" (fun _ => .ok (.arr [])) rfl

/-- C10: the cache key `feed:${sortBy}:${limit}:${chainType}` is not
injective: the distinct requests `("a:1", 2, "x")` and `("a", 1, "2:x")`
share the key `feed:a:1:2:x`, and after the first one fills the cache, a
call for the second one within the TTL is answered from the first one's
stored payload without any upstream fetch. -/
theorem C10_feed_key_collision :
    feedKey ⟨"a:1", 2, "x"⟩ = feedKey ⟨"a", 1, "2:x"⟩
  ∧ (⟨"a:1", 2, "x"⟩ : FeedRequest) ≠ ⟨"a", 1, "2:x"⟩
  ∧ fetchFeed ⟨"a", 1, "2:x"⟩ 1 ⟨false, 500, none, none⟩
        (fetchFeed ⟨"a:1", 2, "x"⟩ 0 ⟨true, 200, some "", some (.str "payload")⟩ []).cache
      = ⟨.ok (.str "payload"),
         (fetchFeed ⟨"a:1", 2, "x"⟩ 0 ⟨true, 200, some "", some (.str "payload")⟩ []).cache,
         false⟩ := by
  refine ⟨rfl, by decide, rfl⟩

/-- C4 counterexample: two concrete refutations.  In variant 3's
`/anoncoin/feeds/all` handler (lines 640-670), when the "hot" fetch fails
the siblings are still present but the "hot" slot is the raw `{_error: ...}`
object, not an empty array.  And in variant 1's handler (lines 190-241),
a mode whose fetch succeeded with the payload
`{"_error": "x", "items": [{"a": 1}]}` is misclassified by the
`raw && raw._error` test: its slot is `[]`, not the payload's normalized
feed `[{"a": 1}]` — so the response does not contain every sibling mode's
normalized feed. -/
theorem C4_counterexample :
    (V3.feedsAllHandler 10 "solana" (fun name =>
        if name = "hot" then .err "Upstream error 500: boom"
        else .ok (.arr [.obj [("a", .num 1)]]))).feeds
      = [("trending", .arr [.obj [("a", .num 1)]]),
         ("new", .arr [.obj [("a", .num 1)]]),
         ("hot", .obj [("_error", .str "Upstream error 500: boom")]),
         ("volume", .arr [.obj [("a", .num 1)]])]
  ∧ Json.obj [("_error", .str "Upstream error 500: boom")] ≠ .arr []
  ∧ V1.feedsAllHandler (some "trending,hot") 10 "solana" (fun name =>
        if name = "hot" then .err "Upstream error 500: boom"
        else .ok (.obj [("_error", .str "x"),
                        ("items", .arr [.obj [("a", .num 1)]])]))
      = (.okResponse ⟨"solana", 10, "dubdub.tv",
          [("trending", .arr []), ("hot", .arr [])]⟩, ["trending", "hot"])
  ∧ V1.normalizeDubDubFeed
        (.obj [("_error", .str "x"), ("items", .arr [.obj [("a", .num 1)]])])
      = .arr [.obj [("a", .num 1)]]
  ∧ Json.arr [.obj [("a", .num 1)]] ≠ .arr [] := by
  refine ⟨rfl, fun h => ?_, rfl, rfl, fun h => ?_⟩
  · simp at h
  · simp at h

/-- C4 amended: in the handlers at lines 190-241 and 429-480 a failing mode
yields `[]` in its slot, a mode whose payload has no truthy `_error` field
yields that snapshot's own normalized feed (a successful payload carrying a
truthy `_error` is misclassified and blanked to `[]`), and every requested
mode is present; in the handler at lines 640-670 every mode is present as
well (no per-mode failure aborts the batch), but a failing mode's slot is
the `{_error: message}` object and successful slots hold the raw payloads
unnormalized. -/
theorem C4_amended_partial_failure :
    (∀ message : String, V1.feedSlot (settleOutcome (.err message)) = .arr [])
  ∧ (∀ message : String, V2.feedSlot (settleOutcome (.err message)) = .arr [])
  ∧ (∀ raw : Json, truthyOpt (raw.getField "_error") = false →
      V1.feedSlot (settleOutcome (.ok raw)) = V1.normalizeDubDubFeed raw)
  ∧ (∀ raw : Json, truthyOpt (raw.getField "_error") = false →
      V2.feedSlot (settleOutcome (.ok raw)) = V2.normalizeDubDubFeed raw)
  ∧ (∀ (sorts : List String) (outcomes : String → FetchOutcome),
      (V1.joinFeeds sorts outcomes).map Prod.fst = sorts)
  ∧ (∀ (sorts : List String) (outcomes : String → FetchOutcome),
      (V2.joinFeeds sorts outcomes).map Prod.fst = sorts)
  ∧ (∀ outcomes : String → FetchOutcome,
      (V3.joinFeeds outcomes).map Prod.fst = V3.sortNames)
  ∧ (∀ (outcomes : String → FetchOutcome) (name message : String),
      name ∈ V3.sortNames → outcomes name = .err message →
      (name, Json.obj [("_error", .str message)]) ∈ V3.joinFeeds outcomes) := by
  refine ⟨fun message => ?_, fun message => ?_, fun raw h => ?_, fun raw h => ?_,
    fun sorts outcomes => ?_, fun sorts outcomes => ?_, fun outcomes => ?_,
    fun outcomes name message hmem hout => ?_⟩
  · by_cases hm : message = ""
    · subst hm; rfl
    · simp [settleOutcome, V1.feedSlot, Json.truthy, Json.getField, truthyOpt, hm]
  · by_cases hm : message = ""
    · subst hm; rfl
    · simp [settleOutcome, V2.feedSlot, Json.truthy, Json.getField, truthyOpt, hm]
  · simp [settleOutcome, V1.feedSlot, h]
  · simp [settleOutcome, V2.feedSlot, h]
  · simp [V1.joinFeeds, Function.comp_def]
  · simp [V2.joinFeeds, Function.comp_def]
  · simp [V3.joinFeeds, Function.comp_def]
  · have : (name, settleOutcome (outcomes name)) ∈ V3.joinFeeds outcomes :=
      List.mem_map_of_mem (fun n => (n, settleOutcome (outcomes n))) hmem
    rwa [hout] at this

/-- C4 witness: a failed mode's slot is `[]` in both the variant-1 and
variant-2 joins, and a clean payload's slot is the respective snapshot's
normalized feed. -/
theorem C4_witness :
    V1.feedSlot (settleOutcome (.err "Upstream error 500: boom")) = .arr []
  ∧ V2.feedSlot (settleOutcome (.err "Upstream error 500: boom")) = .arr []
  ∧ V1.feedSlot (settleOutcome (.ok (.arr [.obj []])))
      = V1.normalizeDubDubFeed (.arr [.obj []])
  ∧ V2.feedSlot (settleOutcome (.ok (.arr [.obj []])))
      = V2.normalizeDubDubFeed (.arr [.obj []]) :=
  ⟨C4_amended_partial_failure.1 "Upstream error 500: boom",
   C4_amended_partial_failure.2.1 "Upstream error 500: boom",
   C4_amended_partial_failure.2.2.1 (.arr [.obj []]) rfl,
   C4_amended_partial_failure.2.2.2.1 (.arr [.obj []]) rfl⟩

/-- Inversion of the miss path: a successful `cachedFetchMiss` means the
upstream response was ok with a JSON body, the entry `{ts: now, ttlMs, data}`
was written, and an upstream request was issued. -/
theorem cachedFetchMiss_ok_inv {key : String} {ttl now : Int}
    {up : HttpResponse} {c c' : Cache} {d : Json} {f : Bool}
    (h : cachedFetchMiss key ttl now up c = ⟨.ok d, c', f⟩) :
    up.ok = true ∧ up.jsonBody = some d
      ∧ c' = c.set key ⟨now, ttl, d⟩ ∧ f = true := by
  unfold cachedFetchMiss at h
  cases hok : up.ok with
  | false => simp [hok] at h
  | true =>
      cases hj : up.jsonBody with
      | none => simp [hok, hj] at h
      | some data =>
          simp only [hok, hj, Bool.not_true, Bool.false_eq_true, if_false,
            FetchResult.mk.injEq] at h
          obtain ⟨hr, hc, hf⟩ := h
          obtain rfl : data = d := by simpa using hr
          exact ⟨rfl, rfl, hc.symm, hf.symm⟩

/-- After any successful `cachedFetch`, the cache holds an entry under the
key whose stored payload is exactly the returned payload. -/
theorem cachedFetch_ok_entry {key : String} {ttl now : Int}
    {up : HttpResponse} {c c' : Cache} {d : Json} {f : Bool}
    (h : cachedFetch key ttl now up c = ⟨.ok d, c', f⟩) :
    ∃ e : CacheEntry, c'.get key = some e ∧ e.data = d := by
  unfold cachedFetch at h
  split at h
  next cached heq =>
    split at h
    · simp only [FetchResult.mk.injEq] at h
      obtain ⟨hr, hc, -⟩ := h
      obtain rfl : cached.data = d := by simpa using hr
      exact ⟨cached, by rw [← hc]; exact heq, rfl⟩
    · obtain ⟨-, -, hc, -⟩ := cachedFetchMiss_ok_inv h
      exact ⟨⟨now, ttl, d⟩, by rw [hc, Cache.get_set_self], rfl⟩
  next heq =>
    obtain ⟨-, -, hc, -⟩ := cachedFetchMiss_ok_inv h
    exact ⟨⟨now, ttl, d⟩, by rw [hc, Cache.get_set_self], rfl⟩

/-- C1: if a `fetchFeed` call for a request succeeds (yielding payload `d`
and cache `c1`), then any second `fetchFeed` call with the identical fields,
made while the entry under that key is within the TTL window, issues no
upstream fetch, leaves the cache untouched, and returns exactly the stored
raw payload — which is the payload the first call returned, so both calls
normalize the same raw value. -/
theorem C1_cache_hit_same_payload
    (r : FeedRequest) (now1 now2 : Int) (up1 up2 : HttpResponse)
    (c0 c1 : Cache) (d : Json) (f : Bool) (e : CacheEntry)
    (h1 : fetchFeed r now1 up1 c0 = ⟨.ok d, c1, f⟩)
    (h2 : c1.get (feedKey r) = some e)
    (h3 : now2 - e.ts < DEFAULT_CACHE_TTL_MS) :
    fetchFeed r now2 up2 c1 = ⟨.ok e.data, c1, false⟩ ∧ e.data = d := by
  obtain ⟨e', he', hd⟩ := cachedFetch_ok_entry h1
  obtain rfl : e' = e := by
    rw [he'] at h2
    exact Option.some.injEq .. ▸ h2
  constructor
  · unfold fetchFeed cachedFetch
    rw [h2]
    exact if_pos h3
  · exact hd

/-- C1 witness: with a cache already holding the payload stored at time 0,
a second call at time 5 (well inside the 30000 ms TTL) returns the stored
payload with no upstream fetch, even though the second upstream response
would be a 500. -/
theorem C1_witness :
    fetchFeed ⟨"trending", 10, "solana"⟩ 5 ⟨false, 500, none, none⟩
        [("feed:trending:10:solana", ⟨0, 30000, .str "p"⟩)]
      = ⟨.ok (.str "p"), [("feed:trending:10:solana", ⟨0, 30000, .str "p"⟩)], false⟩ :=
  (C1_cache_hit_same_payload ⟨"trending", 10, "solana"⟩ 0 5
    ⟨true, 200, some "", some (.str "p")⟩ ⟨false, 500, none, none⟩
    [] [("feed:trending:10:solana", ⟨0, 30000, .str "p"⟩)] (.str "p") true
    ⟨0, 30000, .str "p"⟩ rfl rfl (by decide)).1

/-- C2: the cache read step of `cachedFetch` returns the stored payload
(with no fetch) exactly when `now - ts < ttlMs`; an entry at least as old as
the TTL is treated as absent — no error is raised, an upstream fetch
happens, and on success its result silently overwrites the stale entry. -/
theorem C2_stale_entry_replaced
    (key : String) (ttlMs now : Int) (up : HttpResponse) (c : Cache)
    (e : CacheEntry) (d : Json) (h : c.get key = some e) :
    (now - e.ts < ttlMs →
      cachedFetch key ttlMs now up c = ⟨.ok e.data, c, false⟩)
  ∧ (ttlMs ≤ now - e.ts → up.ok = true → up.jsonBody = some d →
      cachedFetch key ttlMs now up c
          = ⟨.ok d, c.set key ⟨now, ttlMs, d⟩, true⟩
        ∧ (c.set key ⟨now, ttlMs, d⟩).get key = some ⟨now, ttlMs, d⟩) := by
  constructor
  · intro hfresh
    unfold cachedFetch
    rw [h]
    exact if_pos hfresh
  · intro hstale hok hjson
    refine ⟨?_, Cache.get_set_self ..⟩
    unfold cachedFetch
    rw [h]
    exact (if_neg (not_lt.mpr hstale)).trans
      (by unfold cachedFetchMiss; simp [hok, hjson])

/-- C2 witness: with an entry written at time 0 and TTL 30000, a read at
time 5 is a hit returning the stored payload, and a read at time 40000 is
stale: a fetch occurs and its payload overwrites the entry. -/
theorem C2_witness :
    cachedFetch "k" 30000 5 ⟨true, 200, some "", some (.num 2)⟩
        [("k", ⟨0, 30000, .num 1⟩)]
      = ⟨.ok (.num 1), [("k", ⟨0, 30000, .num 1⟩)], false⟩
  ∧ cachedFetch "k" 30000 40000 ⟨true, 200, some "", some (.num 2)⟩
        [("k", ⟨0, 30000, .num 1⟩)]
      = ⟨.ok (.num 2), [("k", ⟨40000, 30000, .num 2⟩)], true⟩ :=
  ⟨(C2_stale_entry_replaced "k" 30000 5 ⟨true, 200, some "", some (.num 2)⟩
      [("k", ⟨0, 30000, .num 1⟩)] ⟨0, 30000, .num 1⟩ (.num 2) rfl).1 (by decide),
   ((C2_stale_entry_replaced "k" 30000 40000 ⟨true, 200, some "", some (.num 2)⟩
      [("k", ⟨0, 30000, .num 1⟩)] ⟨0, 30000, .num 1⟩ (.num 2) rfl).2
      (by decide) rfl rfl).1⟩

/-- C8: when the fetch actually happens (no fresh entry) and the upstream
status is not ok, `cachedFetch` — and hence `fetchFeed`, which merely
delegates — throws `Upstream error <status>: <body>` with the best-effort
body (empty when unreadable), and the cache is left exactly as it was:
the entry under the key, if any, is unchanged. -/
theorem C8_upstream_error_propagates
    (r : FeedRequest) (now : Int) (up : HttpResponse) (c : Cache)
    (hnohit : ∀ e, c.get (feedKey r) = some e → DEFAULT_CACHE_TTL_MS ≤ now - e.ts)
    (hbad : up.ok = false) :
    fetchFeed r now up c
      = ⟨.error ("Upstream error " ++ toString up.status ++ ": "
          ++ up.textBody.getD ""), c, true⟩
  ∧ (fetchFeed r now up c).cache.get (feedKey r) = c.get (feedKey r) := by
  have hmiss : cachedFetchMiss (feedKey r) DEFAULT_CACHE_TTL_MS now up c
      = ⟨.error ("Upstream error " ++ toString up.status ++ ": "
          ++ up.textBody.getD ""), c, true⟩ := by
    unfold cachedFetchMiss
    simp [hbad]
  have hmain : fetchFeed r now up c
      = ⟨.error ("Upstream error " ++ toString up.status ++ ": "
          ++ up.textBody.getD ""), c, true⟩ := by
    unfold fetchFeed cachedFetch
    cases hg : c.get (feedKey r) with
    | some e => exact (if_neg (not_lt.mpr (hnohit e hg))).trans hmiss
    | none => exact hmiss
  exact ⟨hmain, by rw [hmain]⟩

/-- C8 witness: a 503 with unreadable body on an empty cache yields the
thrown message with empty body text and leaves the cache empty. -/
theorem C8_witness :
    fetchFeed ⟨"trending", 10, "solana"⟩ 0 ⟨false, 503, none, none⟩ []
      = ⟨.error "Upstream error 503: ", [], true⟩ :=
  (C8_upstream_error_propagates ⟨"trending", 10, "solana"⟩ 0
    ⟨false, 503, none, none⟩ [] (fun _ h => Option.noConfusion h) rfl).1

/-- `v` is a plain JSON object (not `null`, not an array). -/
def Json.isObj : Json → Bool
  | .obj _ => true
  | _ => false

/-- `OccursAt root d y`: the value `y` occurs at nesting depth `d` inside
`root`, stepping one level through array elements or object field values —
the depth the walker of `findLargestObjectArray` counts. -/
inductive OccursAt : Json → Nat → Json → Prop where
  | here (j : Json) : OccursAt j 0 j
  | inArr {elems : List Json} {x y : Json} {d : Nat} :
      x ∈ elems → OccursAt x d y → OccursAt (.arr elems) (d + 1) y
  | inObj {fields : List (String × Json)} {k : String} {x y : Json} {d : Nat} :
      (k, x) ∈ fields → OccursAt x d y → OccursAt (.obj fields) (d + 1) y

/-- A qualifying array reachable from `node` within the remaining depth
budget: it occurs `d` levels below `node` with `depth + d ≤ m` and passes
the walker's array test. -/
def Cand (m : Nat) (node : Json) (depth : Nat) (xs : List Json) : Prop :=
  ∃ d, depth + d ≤ m ∧ OccursAt node d (.arr xs) ∧ arrayQualifies xs = true

/-- `Cand` ranging over the elements of a list (the walker's `forEach`). -/
def CandElems (m : Nat) (nodes : List Json) (depth : Nat) (xs : List Json) : Prop :=
  ∃ x ∈ nodes, Cand m x depth xs

/-- `Cand` ranging over the values of an object's fields. -/
def CandFields (m : Nat) (fields : List (String × Json)) (depth : Nat)
    (xs : List Json) : Prop :=
  ∃ kv ∈ fields, Cand m kv.2 depth xs

mutual

/-- If the walk of a node returns no best array, it started with none and
no qualifying array is reachable within the budget. -/
theorem walkJson_none_inv (m : Nat) (node : Json) (depth : Nat)
    (best : Option (List Json)) (h : walkJson m node depth best = none) :
    best = none ∧ ∀ xs, ¬ Cand m node depth xs := by
  by_cases hd : depth > m
  · unfold walkJson at h
    rw [if_pos hd] at h
    refine ⟨h, fun xs hc => ?_⟩
    obtain ⟨d, hle, -, -⟩ := hc
    omega
  · cases node with
    | arr elems =>
        simp only [walkJson, hd, if_false] at h
        obtain ⟨hb1, hnc⟩ := walkElems_none_inv m elems (depth + 1) _ h
        have hqf : arrayQualifies elems = false ∧ best = none := by
          by_cases hc : (arrayQualifies elems && strictlyLarger elems best) = true
          · rw [if_pos hc] at hb1
            exact absurd hb1 (by simp)
          · rw [if_neg hc] at hb1
            subst hb1
            refine ⟨?_, rfl⟩
            by_cases hq : arrayQualifies elems = true
            · exact absurd (by simp [hq, strictlyLarger]) hc
            · simpa using hq
        refine ⟨hqf.2, fun xs hc => ?_⟩
        obtain ⟨d, hle, hocc, hq⟩ := hc
        cases hocc with
        | here =>
            exact absurd hq (by simp [hqf.1])
        | inArr hmem hocc' =>
            exact hnc xs ⟨_, hmem, _, by omega, hocc', hq⟩
    | obj fields =>
        simp only [walkJson, hd, if_false] at h
        obtain ⟨hb, hnc⟩ := walkFields_none_inv m fields (depth + 1) best h
        refine ⟨hb, fun xs hc => ?_⟩
        obtain ⟨d, hle, hocc, hq⟩ := hc
        cases hocc with
        | inObj hmem hocc' =>
            exact hnc xs ⟨_, hmem, _, by omega, hocc', hq⟩
    | null =>
        simp only [walkJson, hd, if_false] at h
        refine ⟨h, fun xs hc => ?_⟩
        obtain ⟨d, hle, hocc, hq⟩ := hc
        cases hocc
    | bool b =>
        simp only [walkJson, hd, if_false] at h
        refine ⟨h, fun xs hc => ?_⟩
        obtain ⟨d, hle, hocc, hq⟩ := hc
        cases hocc
    | num n =>
        simp only [walkJson, hd, if_false] at h
        refine ⟨h, fun xs hc => ?_⟩
        obtain ⟨d, hle, hocc, hq⟩ := hc
        cases hocc
    | str s =>
        simp only [walkJson, hd, if_false] at h
        refine ⟨h, fun xs hc => ?_⟩
        obtain ⟨d, hle, hocc, hq⟩ := hc
        cases hocc

/-- List version of `walkJson_none_inv`. -/
theorem walkElems_none_inv (m : Nat) (nodes : List Json) (depth : Nat)
    (best : Option (List Json)) (h : walkElems m nodes depth best = none) :
    best = none ∧ ∀ xs, ¬ CandElems m nodes depth xs := by
  cases nodes with
  | nil =>
      simp only [walkElems] at h
      exact ⟨h, fun xs hc => by obtain ⟨x, hx, -⟩ := hc; simp at hx⟩
  | cons x rest =>
      simp only [walkElems] at h
      obtain ⟨hw, hncr⟩ := walkElems_none_inv m rest depth _ h
      obtain ⟨hb, hncx⟩ := walkJson_none_inv m x depth best hw
      refine ⟨hb, fun xs hc => ?_⟩
      obtain ⟨y, hy, hcy⟩ := hc
      rcases List.mem_cons.mp hy with rfl | hyr
      · exact hncx xs hcy
      · exact hncr xs ⟨y, hyr, hcy⟩

/-- Field version of `walkJson_none_inv`. -/
theorem walkFields_none_inv (m : Nat) (fields : List (String × Json))
    (depth : Nat) (best : Option (List Json))
    (h : walkFields m fields depth best = none) :
    best = none ∧ ∀ xs, ¬ CandFields m fields depth xs := by
  cases fields with
  | nil =>
      simp only [walkFields] at h
      exact ⟨h, fun xs hc => by obtain ⟨kv, hkv, -⟩ := hc; simp at hkv⟩
  | cons kv rest =>
      obtain ⟨k, v⟩ := kv
      simp only [walkFields] at h
      obtain ⟨hw, hncr⟩ := walkFields_none_inv m rest depth _ h
      obtain ⟨hb, hncx⟩ := walkJson_none_inv m v depth best hw
      refine ⟨hb, fun xs hc => ?_⟩
      obtain ⟨kv', hkv', hcy⟩ := hc
      rcases List.mem_cons.mp hkv' with rfl | hyr
      · exact hncx xs hcy
      · exact hncr xs ⟨kv', hyr, hcy⟩

end

mutual

/-- If the walk returns a best array, it is either the incoming one or a
qualifying array reachable within the budget. -/
theorem walkJson_origin (m : Nat) (node : Json) (depth : Nat)
    (best : Option (List Json)) (r : List Json)
    (h : walkJson m node depth best = some r) :
    best = some r ∨ Cand m node depth r := by
  by_cases hd : depth > m
  · unfold walkJson at h
    rw [if_pos hd] at h
    exact Or.inl h
  · cases node with
    | arr elems =>
        simp only [walkJson, hd, if_false] at h
        rcases walkElems_origin m elems (depth + 1) _ r h with hb1 | hc
        · by_cases hc' : (arrayQualifies elems && strictlyLarger elems best) = true
          · rw [if_pos hc'] at hb1
            obtain rfl : elems = r := by simpa using hb1
            exact Or.inr ⟨0, by omega, OccursAt.here _,
              ((Bool.and_eq_true ..).mp hc').1⟩
          · rw [if_neg hc'] at hb1
            exact Or.inl hb1
        · obtain ⟨x, hx, d', hle', hocc', hq'⟩ := hc
          exact Or.inr ⟨d' + 1, by omega, OccursAt.inArr hx hocc', hq'⟩
    | obj fields =>
        simp only [walkJson, hd, if_false] at h
        rcases walkFields_origin m fields (depth + 1) best r h with hb | hc
        · exact Or.inl hb
        · obtain ⟨⟨k, v⟩, hkv, d', hle', hocc', hq'⟩ := hc
          exact Or.inr ⟨d' + 1, by omega, OccursAt.inObj hkv hocc', hq'⟩
    | null => unfold walkJson at h; rw [if_neg hd] at h; exact Or.inl h
    | bool b => unfold walkJson at h; rw [if_neg hd] at h; exact Or.inl h
    | num n => unfold walkJson at h; rw [if_neg hd] at h; exact Or.inl h
    | str s => unfold walkJson at h; rw [if_neg hd] at h; exact Or.inl h

/-- List version of `walkJson_origin`. -/
theorem walkElems_origin (m : Nat) (nodes : List Json) (depth : Nat)
    (best : Option (List Json)) (r : List Json)
    (h : walkElems m nodes depth best = some r) :
    best = some r ∨ CandElems m nodes depth r := by
  cases nodes with
  | nil =>
      simp only [walkElems] at h
      exact Or.inl h
  | cons x rest =>
      simp only [walkElems] at h
      rcases walkElems_origin m rest depth _ r h with hw | hc
      · rcases walkJson_origin m x depth best r hw with hb | hcx
        · exact Or.inl hb
        · exact Or.inr ⟨x, List.mem_cons_self .., hcx⟩
      · obtain ⟨y, hy, hcy⟩ := hc
        exact Or.inr ⟨y, List.mem_cons_of_mem _ hy, hcy⟩

/-- Field version of `walkJson_origin`. -/
theorem walkFields_origin (m : Nat) (fields : List (String × Json))
    (depth : Nat) (best : Option (List Json)) (r : List Json)
    (h : walkFields m fields depth best = some r) :
    best = some r ∨ CandFields m fields depth r := by
  cases fields with
  | nil =>
      simp only [walkFields] at h
      exact Or.inl h
  | cons kv rest =>
      obtain ⟨k, v⟩ := kv
      simp only [walkFields] at h
      rcases walkFields_origin m rest depth _ r h with hw | hc
      · rcases walkJson_origin m v depth best r hw with hb | hcx
        · exact Or.inl hb
        · exact Or.inr ⟨(k, v), List.mem_cons_self .., hcx⟩
      · obtain ⟨kv', hkv', hcy⟩ := hc
        exact Or.inr ⟨kv', List.mem_cons_of_mem _ hkv', hcy⟩

end

mutual

/-- Dominance: whatever best array the walk of a node returns is at least
as long as the incoming best and as every qualifying array reachable
within the budget. -/
theorem walkJson_dom (m : Nat) (node : Json) (depth : Nat)
    (best : Option (List Json)) (r : List Json)
    (h : walkJson m node depth best = some r) :
    (∀ b, best = some b → b.length ≤ r.length)
  ∧ (∀ xs, Cand m node depth xs → xs.length ≤ r.length) := by
  by_cases hd : depth > m
  · unfold walkJson at h
    rw [if_pos hd] at h
    refine ⟨fun b hb => ?_, fun xs hc => ?_⟩
    · rw [hb] at h
      obtain rfl : b = r := by simpa using h
      exact le_refl _
    · obtain ⟨d, hle, -, -⟩ := hc
      omega
  · cases node with
    | arr elems =>
        simp only [walkJson, hd, if_false] at h
        obtain ⟨hdb1, hdc⟩ := walkElems_dom m elems (depth + 1) _ r h
        by_cases hc' : (arrayQualifies elems && strictlyLarger elems best) = true
        · have helems : elems.length ≤ r.length := hdb1 elems (by rw [if_pos hc'])
          obtain ⟨hq, hsl⟩ := (Bool.and_eq_true ..).mp hc'
          refine ⟨fun b hb => ?_, fun xs hcand => ?_⟩
          · rw [hb] at hsl
            have : b.length < elems.length := by simpa [strictlyLarger] using hsl
            omega
          · obtain ⟨d, hle, hocc, hqxs⟩ := hcand
            cases hocc with
            | here => exact helems
            | inArr hmem hocc' => exact hdc xs ⟨_, hmem, _, by omega, hocc', hqxs⟩
        · have hbest : ∀ b, best = some b → b.length ≤ r.length := fun b hb =>
            hdb1 b (by rw [if_neg hc', hb])
          refine ⟨hbest, fun xs hcand => ?_⟩
          obtain ⟨d, hle, hocc, hqxs⟩ := hcand
          cases hocc with
          | here =>
              have hsl : strictlyLarger elems best = false := by
                rcases Bool.and_eq_false_iff.mp (Bool.eq_false_iff.mpr hc') with hq0 | hs0
                · exact absurd hqxs (by simp [hq0])
                · exact hs0
              cases best with
              | none => exact absurd hsl (by simp [strictlyLarger])
              | some b =>
                  have hnlt : ¬ (b.length < elems.length) := by
                    simpa [strictlyLarger] using hsl
                  have hble := hbest b rfl
                  omega
          | inArr hmem hocc' => exact hdc xs ⟨_, hmem, _, by omega, hocc', hqxs⟩
    | obj fields =>
        simp only [walkJson, hd, if_false] at h
        obtain ⟨hdb, hdc⟩ := walkFields_dom m fields (depth + 1) best r h
        refine ⟨hdb, fun xs hcand => ?_⟩
        obtain ⟨d, hle, hocc, hqxs⟩ := hcand
        cases hocc with
        | inObj hmem hocc' => exact hdc xs ⟨_, hmem, _, by omega, hocc', hqxs⟩
    | null =>
        unfold walkJson at h
        rw [if_neg hd] at h
        refine ⟨fun b hb => ?_, fun xs hc => ?_⟩
        · rw [hb] at h
          obtain rfl : b = r := by simpa using h
          exact le_refl _
        · obtain ⟨d, hle, hocc, -⟩ := hc
          cases hocc
    | bool b0 =>
        unfold walkJson at h
        rw [if_neg hd] at h
        refine ⟨fun b hb => ?_, fun xs hc => ?_⟩
        · rw [hb] at h
          obtain rfl : b = r := by simpa using h
          exact le_refl _
        · obtain ⟨d, hle, hocc, -⟩ := hc
          cases hocc
    | num n =>
        unfold walkJson at h
        rw [if_neg hd] at h
        refine ⟨fun b hb => ?_, fun xs hc => ?_⟩
        · rw [hb] at h
          obtain rfl : b = r := by simpa using h
          exact le_refl _
        · obtain ⟨d, hle, hocc, -⟩ := hc
          cases hocc
    | str s =>
        unfold walkJson at h
        rw [if_neg hd] at h
        refine ⟨fun b hb => ?_, fun xs hc => ?_⟩
        · rw [hb] at h
          obtain rfl : b = r := by simpa using h
          exact le_refl _
        · obtain ⟨d, hle, hocc, -⟩ := hc
          cases hocc

/-- List version of `walkJson_dom`. -/
theorem walkElems_dom (m : Nat) (nodes : List Json) (depth : Nat)
    (best : Option (List Json)) (r : List Json)
    (h : walkElems m nodes depth best = some r) :
    (∀ b, best = some b → b.length ≤ r.length)
  ∧ (∀ xs, CandElems m nodes depth xs → xs.length ≤ r.length) := by
  cases nodes with
  | nil =>
      simp only [walkElems] at h
      refine ⟨fun b hb => ?_, fun xs hc => ?_⟩
      · rw [hb] at h
        obtain rfl : b = r := by simpa using h
        exact le_refl _
      · obtain ⟨y, hy, -⟩ := hc
        simp at hy
  | cons x rest =>
      simp only [walkElems] at h
      obtain ⟨hdw, hdr⟩ := walkElems_dom m rest depth _ r h
      cases hw : walkJson m x depth best with
      | none =>
          obtain ⟨hbn, hnc⟩ := walkJson_none_inv m x depth best hw
          subst hbn
          refine ⟨fun b hb => Option.noConfusion hb, fun xs hc => ?_⟩
          obtain ⟨y, hy, hcy⟩ := hc
          rcases List.mem_cons.mp hy with rfl | hyr
          · exact absurd hcy (hnc xs)
          · exact hdr xs ⟨y, hyr, hcy⟩
      | some bw =>
          have hbw : bw.length ≤ r.length := hdw bw hw
          obtain ⟨hdbx, hdcx⟩ := walkJson_dom m x depth best bw hw
          refine ⟨fun b hb => le_trans (hdbx b hb) hbw, fun xs hc => ?_⟩
          obtain ⟨y, hy, hcy⟩ := hc
          rcases List.mem_cons.mp hy with rfl | hyr
          · exact le_trans (hdcx xs hcy) hbw
          · exact hdr xs ⟨y, hyr, hcy⟩

/-- Field version of `walkJson_dom`. -/
theorem walkFields_dom (m : Nat) (fields : List (String × Json))
    (depth : Nat) (best : Option (List Json)) (r : List Json)
    (h : walkFields m fields depth best = some r) :
    (∀ b, best = some b → b.length ≤ r.length)
  ∧ (∀ xs, CandFields m fields depth xs → xs.length ≤ r.length) := by
  cases fields with
  | nil =>
      simp only [walkFields] at h
      refine ⟨fun b hb => ?_, fun xs hc => ?_⟩
      · rw [hb] at h
        obtain rfl : b = r := by simpa using h
        exact le_refl _
      · obtain ⟨kv, hkv, -⟩ := hc
        simp at hkv
  | cons kv rest =>
      obtain ⟨k, v⟩ := kv
      simp only [walkFields] at h
      obtain ⟨hdw, hdr⟩ := walkFields_dom m rest depth _ r h
      cases hw : walkJson m v depth best with
      | none =>
          obtain ⟨hbn, hnc⟩ := walkJson_none_inv m v depth best hw
          subst hbn
          refine ⟨fun b hb => Option.noConfusion hb, fun xs hc => ?_⟩
          obtain ⟨kv', hkv', hcy⟩ := hc
          rcases List.mem_cons.mp hkv' with rfl | hyr
          · exact absurd hcy (hnc xs)
          · exact hdr xs ⟨kv', hyr, hcy⟩
      | some bw =>
          have hbw : bw.length ≤ r.length := hdw bw hw
          obtain ⟨hdbx, hdcx⟩ := walkJson_dom m v depth best bw hw
          refine ⟨fun b hb => le_trans (hdbx b hb) hbw, fun xs hc => ?_⟩
          obtain ⟨kv', hkv', hcy⟩ := hc
          rcases List.mem_cons.mp hkv' with rfl | hyr
          · exact le_trans (hdcx xs hcy) hbw
          · exact hdr xs ⟨kv', hyr, hcy⟩

end

/-- C7 counterexample: on `[null]` the walker's test `typeof node[0] ===
"object"` accepts `null`, so `findLargestObjectArray` returns `[null]` — a
non-empty array whose first element is not an object — where the claim,
reading "object" strictly, demands the empty array. -/
theorem C7_counterexample :
    findLargestObjectArray (.arr [.null]) 5 = [.null]
  ∧ Json.null.isObj = false
  ∧ [Json.null] ≠ ([] : List Json) := by
  refine ⟨rfl, rfl, ?_⟩
  simp

/-- C7 amended: `findLargestObjectArray root 5` returns an array whose
element count is at least that of every non-empty array, occurring at depth
at most 5 in `root`, whose first element has JavaScript typeof "object"
(null, array, or object); when such an array exists the result is itself
such an array at depth at most 5, and when none exists the result is the
empty array. -/
theorem C7_amended_largest_object_array (root : Json) :
    (∀ xs d, d ≤ 5 → OccursAt root d (.arr xs) → arrayQualifies xs = true →
      xs.length ≤ (findLargestObjectArray root 5).length)
  ∧ ((∃ xs d, d ≤ 5 ∧ OccursAt root d (.arr xs) ∧ arrayQualifies xs = true) →
      arrayQualifies (findLargestObjectArray root 5) = true
        ∧ ∃ d, d ≤ 5 ∧ OccursAt root d (.arr (findLargestObjectArray root 5)))
  ∧ ((¬ ∃ xs d, d ≤ 5 ∧ OccursAt root d (.arr xs) ∧ arrayQualifies xs = true) →
      findLargestObjectArray root 5 = []) := by
  cases hw : walkJson 5 root 0 none with
  | none =>
      obtain ⟨-, hnc⟩ := walkJson_none_inv 5 root 0 none hw
      have hres : findLargestObjectArray root 5 = [] := by
        unfold findLargestObjectArray
        rw [hw]
        rfl
      refine ⟨?_, ?_, fun _ => hres⟩
      · intro xs d hd5 hocc hq
        exact absurd ⟨d, by omega, hocc, hq⟩ (hnc xs)
      · rintro ⟨xs, d, hd5, hocc, hq⟩
        exact absurd ⟨d, by omega, hocc, hq⟩ (hnc xs)
  | some r =>
      have hres : findLargestObjectArray root 5 = r := by
        unfold findLargestObjectArray
        rw [hw]
        rfl
      have hcand : Cand 5 root 0 r := by
        rcases walkJson_origin 5 root 0 none r hw with hb | hc
        · exact absurd hb (by simp)
        · exact hc
      have hdom := (walkJson_dom 5 root 0 none r hw).2
      obtain ⟨d, hle, hocc, hq⟩ := hcand
      refine ⟨?_, fun _ => ?_, fun hne => ?_⟩
      · intro xs d' hd' hocc' hq'
        rw [hres]
        exact hdom xs ⟨d', by omega, hocc', hq'⟩
      · rw [hres]
        exact ⟨hq, d, by omega, hocc⟩
      · exact absurd ⟨r, d, by omega, hocc, hq⟩ hne

/-- C7 witness: the amended statement applied at `[[{}], {"a": [{}, {}]}]`,
whose largest typeof-object array within depth 5 is the two-element
`[{}, {}]` at depth 2. -/
theorem C7_witness :
    ([Json.obj [], Json.obj []] : List Json).length
      ≤ (findLargestObjectArray
          (.arr [.arr [.obj []], .obj [("a", .arr [.obj [], .obj []])]]) 5).length :=
  (C7_amended_largest_object_array
      (.arr [.arr [.obj []], .obj [("a", .arr [.obj [], .obj []])]])).1
    [Json.obj [], Json.obj []] 2 (by omega)
    (OccursAt.inArr
      (show Json.obj [("a", Json.arr [Json.obj [], Json.obj []])]
          ∈ [Json.arr [Json.obj []],
             Json.obj [("a", Json.arr [Json.obj [], Json.obj []])]] by simp)
      (OccursAt.inObj (List.mem_cons_self ..) (OccursAt.here _)))
    rfl
